import Mathlib

/-!
Shallow embedding of `realbasicvsr/models/backbones/real_basicvsr_net.py`
(class `RealBasicVSRNet`).  Tensors are modelled over exact rationals: a frame
is the flat list of its `c*h*w` entries, and a clip of shape `(n, t, c, h, w)`
is `n` batch rows, each a list of `t` frames.  The external collaborators (the
convolutional cleaning stack `image_cleaning` applied to a single frame, and
the BasicVSR super-resolution network `basicvsr`) are parameters of the
embedding; applying the cleaning stack to a batch of frames is its per-frame
application mapped across the batch axis, which is the shape-invariance of
convolutional networks along the batch dimension.
-/

namespace RealBasicVSR

/-- A single frame: the flat list of its `c*h*w` scalar entries. -/
abbrev Frame : Type := List ℚ

/-- A clip tensor of shape `(n, t, c, h, w)`: `n` batch rows, each a list of
`t` frames, every frame holding its scalar entries flattened. -/
structure Clip where
  n : ℕ
  t : ℕ
  rows : List (List Frame)
deriving DecidableEq, Repr

/-- The clip really has shape `(n, t, _)`: `n` rows of `t` frames each. -/
def Clip.WF (c : Clip) : Prop :=
  c.rows.length = c.n ∧ ∀ r ∈ c.rows, r.length = c.t

instance (c : Clip) : Decidable c.WF :=
  inferInstanceAs (Decidable (c.rows.length = c.n ∧ ∀ r ∈ c.rows, r.length = c.t))

/-- Elementwise addition of two equal-shaped frames (`x + r`). -/
def addF (x r : Frame) : Frame := List.zipWith (· + ·) x r

/-- The value a frame holds after one cleaning step with in-place residual
add: `x += image_cleaning(x)`. -/
def cleanF (image_cleaning : Frame → Frame) (x : Frame) : Frame :=
  addF x (image_cleaning x)

/-- Sequential cleaning of the `t` time steps of every batch row, embedding

    for i in range(0, t):
        residue_i = self.image_cleaning(lqs[:, i, :, :, :])
        lqs[:, i, :, :, :] += residue_i
        residues.append(residue_i)
    residues = torch.stack(residues, dim=1)

as a recursion over the time axis: at each step the current first frames of
all rows form the column `lqs[:, i]`, the residue of the column is computed
from the frames before they are updated, the updated column is put back, and
the per-step residues are stacked along `dim=1`, giving each row its list of
`t` residue frames.  Returns `(cleaned rows, stacked residue rows)`. -/
def seqGo (image_cleaning : Frame → Frame) :
    ℕ → List (List Frame) → List (List Frame) × List (List Frame)
  | 0, rows => (rows, rows.map fun _ => [])
  | m + 1, rows =>
      let heads := rows.map fun row => row.headD []
      let res := heads.map image_cleaning
      let newHeads := List.zipWith addF heads res
      let rest := seqGo image_cleaning m (rows.map List.tail)
      (List.zipWith List.cons newHeads rest.1, List.zipWith List.cons res rest.2)

/-- Row-major reshape of a flat batch of `n*t` frames back into `n` rows of
`t` frames, embedding `.view(n, t, c, h, w)`. -/
def unview : ℕ → ℕ → List Frame → List (List Frame)
  | 0, _, _ => []
  | n + 1, t, flat => flat.take t :: unview n t (flat.drop t)

/-- One iteration of the cleaning loop body, in either mode.

Sequential mode (`is_sequential_cleaning` true): clean the clip column by
column; `torch.stack(residues, dim=1)` raises when the residue list is empty,
which happens exactly when `t = 0`, hence `none` there.

Batched mode: `lqs = lqs.view(-1, c, h, w)` flattens time into batch,
`residues = self.image_cleaning(lqs)` applies the cleaning stack to every
frame of the flat batch, and `lqs = (lqs + residues).view(n, t, c, h, w)`
reshapes the out-of-place sum back.

Returns the cleaned clip together with the flat list of all residue frames.
The residues tensor differs in shape between the modes (`(n, t, c, h, w)`
stacked versus `(n*t, c, h, w)` flat) but holds the same entries, and the
stopping rule only reads `torch.mean(torch.abs(residues))`, so the flat list
carries all the information the loop consumes. -/
def cleanPass (is_sequential_cleaning : Bool) (image_cleaning : Frame → Frame)
    (lqs : Clip) : Option (Clip × List Frame) :=
  if is_sequential_cleaning then
    if lqs.t = 0 then none
    else
      let r := seqGo image_cleaning lqs.t lqs.rows
      some ({ lqs with rows := r.1 }, r.2.flatten)
  else
    let flat := lqs.rows.flatten
    let residues := flat.map image_cleaning
    some ({ lqs with rows := unview lqs.n lqs.t (List.zipWith addF flat residues) },
          residues)

/-- Number of scalar entries of the residues tensor. -/
def resNumel (res : List Frame) : ℕ := (res.map List.length).sum

/-- Sum of the absolute values of all scalar entries of the residues tensor. -/
def resSumAbs (res : List Frame) : ℚ :=
  (res.map fun fr => (fr.map fun q => |q|).sum).sum

/-- The stopping test `torch.mean(torch.abs(residues)) < self.dynamic_refine_thres`.
`torch.mean` of an empty tensor is NaN and `NaN < thres` is false, so the test
can only fire on a tensor with at least one entry. -/
def meanAbsBreak (res : List Frame) (dynamic_refine_thres : ℚ) : Bool :=
  decide (resNumel res ≠ 0 ∧
    resSumAbs res / (resNumel res : ℚ) < dynamic_refine_thres)

/-- The refinement loop `for _ in range(0, 3)` with `fuel` iterations left;
returns the cleaned clip and the number of loop iterations executed, or
`none` when an iteration raises. -/
def refineGo (is_sequential_cleaning : Bool) (image_cleaning : Frame → Frame)
    (dynamic_refine_thres : ℚ) : ℕ → Clip → Option (Clip × ℕ)
  | 0, lqs => some (lqs, 0)
  | m + 1, lqs =>
      match cleanPass is_sequential_cleaning image_cleaning lqs with
      | none => none
      | some (lqs', res) =>
          if meanAbsBreak res dynamic_refine_thres then some (lqs', 1)
          else
            match refineGo is_sequential_cleaning image_cleaning
                dynamic_refine_thres m lqs' with
            | none => none
            | some (out, k) => some (out, k + 1)

/-- The full cleaning loop of `forward`: at most 3 iterations,
`for _ in range(0, 3)`. -/
def refineLoop (is_sequential_cleaning : Bool) (image_cleaning : Frame → Frame)
    (dynamic_refine_thres : ℚ) (lqs : Clip) : Option (Clip × ℕ) :=
  refineGo is_sequential_cleaning image_cleaning dynamic_refine_thres 3 lqs

/-- `RealBasicVSRNet.forward`.  `basicvsr` is the external BasicVSR
super-resolution network applied after cleaning.  The outer `Option` is
normal termination versus a raised error; the inner `Option` is the Python
return value, with `none` standing for Python `None`: when `return_lqs` is
true the line `outputs, lqs` builds a tuple but does not return it, so the
function falls through and returns `None`. -/
def forward (is_sequential_cleaning : Bool) (image_cleaning : Frame → Frame)
    (basicvsr : Clip → Clip) (dynamic_refine_thres : ℚ)
    (lqs : Clip) (return_lqs : Bool) : Option (Option Clip) :=
  match refineLoop is_sequential_cleaning image_cleaning dynamic_refine_thres lqs with
  | none => none
  | some (lqs', _) =>
      let outputs := basicvsr lqs'
      if return_lqs then some none else some (some outputs)

/-- The contents of the caller input tensor after `forward` returns.  In
sequential mode the updates `lqs[:, i, :, :, :] += residue_i` write in place
through `lqs`, which is never rebound and aliases the caller tensor for the
whole loop, so the caller tensor ends up holding the cleaned clip.  In
batched mode `lqs = lqs.view(-1, c, h, w)` merely rebinds the local name to a
view and `(lqs + residues)` allocates a fresh tensor, so the caller storage is
never written and keeps the original clip. -/
def forwardFinalBuffer (is_sequential_cleaning : Bool)
    (image_cleaning : Frame → Frame) (dynamic_refine_thres : ℚ)
    (lqs : Clip) : Option Clip :=
  match refineLoop is_sequential_cleaning image_cleaning dynamic_refine_thres lqs with
  | none => none
  | some (lqs', _) => some (if is_sequential_cleaning then lqs' else lqs)

/-- The `pretrained` argument of `RealBasicVSRNet.init_weights`: a string
path, Python `None`, or a value of any other type (carrying the name that
`type(pretrained)` prints). -/
inductive Pretrained where
  | str (path : String)
  | nonePy
  | other (typeName : String)
deriving DecidableEq, Repr

/-- Observable outcome of `init_weights`. -/
inductive InitWeightsResult where
  | loadCheckpoint (path : String) (strict : Bool)
  | noop
  | typeError (msg : String)
deriving DecidableEq, Repr

/-- The message of the raised `TypeError`, naming the received type. -/
def typeErrorMsg (typeName : String) : String :=
  "\"pretrained\" must be a str or None. But received " ++ typeName ++ "."

/-- `RealBasicVSRNet.init_weights`: a string loads the checkpoint, `None`
does nothing, and anything else raises a `TypeError` naming the received
type. -/
def init_weights (pretrained : Pretrained) (strict : Bool) : InitWeightsResult :=
  match pretrained with
  | .str path => .loadCheckpoint path strict
  | .nonePy => .noop
  | .other ty => .typeError (typeErrorMsg ty)

/-- Whether the outcome is a raised `TypeError`. -/
def InitWeightsResult.isTypeError : InitWeightsResult → Bool
  | .typeError _ => true
  | _ => false

/-- Whether the argument is a string. -/
def Pretrained.isStr : Pretrained → Bool
  | .str _ => true
  | _ => false

/-- Whether the argument is Python `None`. -/
def Pretrained.isNonePy : Pretrained → Bool
  | .nonePy => true
  | _ => false

/-- Constructor arguments of `RealBasicVSRNet.__init__` that the embedding
tracks. -/
structure NetArgs where
  mid_channels : ℕ
  num_propagation_blocks : ℕ
  num_cleaning_blocks : ℕ
  dynamic_refine_thres : ℚ
  is_fix_cleaning : Bool
  is_sequential_cleaning : Bool
deriving DecidableEq, Repr

/-- Observable state of a constructed `RealBasicVSRNet`: the stored stopping
threshold and cleaning mode, and the trainability (`requires_grad`) of the
three parameter groups: the image cleaning module, the BasicVSR parameters
outside its flow estimator, and the flow estimator (`spynet`). -/
structure NetState where
  dynamic_refine_thres : ℚ
  is_sequential_cleaning : Bool
  cleaning_requires_grad : Bool
  basicvsr_rest_requires_grad : Bool
  spynet_requires_grad : Bool
deriving DecidableEq, Repr

/-- `RealBasicVSRNet.__init__`: normalizes the threshold by 255, builds the
sub-modules (all parameters trainable by default), freezes the cleaning
module when `is_fix_cleaning` is set, and always freezes the flow estimator
via `self.basicvsr.spynet.requires_grad_(False)`. -/
def mkRealBasicVSRNet (a : NetArgs) : NetState :=
  let s0 : NetState :=
    { dynamic_refine_thres := a.dynamic_refine_thres / 255
      is_sequential_cleaning := a.is_sequential_cleaning
      cleaning_requires_grad := true
      basicvsr_rest_requires_grad := true
      spynet_requires_grad := true }
  let s1 := if a.is_fix_cleaning then { s0 with cleaning_requires_grad := false } else s0
  { s1 with spynet_requires_grad := false }

/-- `forward` of a constructed module: the mode and threshold come from the
construction-time state, the weights of the two sub-networks are the
function parameters. -/
def netForward (m : NetState) (image_cleaning : Frame → Frame)
    (basicvsr : Clip → Clip) (lqs : Clip) (return_lqs : Bool) :
    Option (Option Clip) :=
  forward m.is_sequential_cleaning image_cleaning basicvsr
    m.dynamic_refine_thres lqs return_lqs

/-- A cleaning network for concrete evaluations: the residue equals the
frame. -/
def idClean : Frame → Frame := fun x => x

/-- A 1 by 1 clip whose single one-entry frame holds 0. -/
def clip110 : Clip := ⟨1, 1, [[[0]]]⟩

/-- A 1 by 1 clip whose single one-entry frame holds 1. -/
def clip111 : Clip := ⟨1, 1, [[[1]]]⟩

/-- A clip of shape `(1, 0, c, h, w)`: one batch row with zero frames. -/
def clipT0 : Clip := ⟨1, 0, [[]]⟩

/-- Shape `(c, h, w)` of a frame tensor. -/
structure FrameShape where
  c : ℕ
  h : ℕ
  w : ℕ
deriving DecidableEq, Repr

/-- Shape `(n, t, c, h, w)` of a clip tensor. -/
structure ClipShape where
  n : ℕ
  t : ℕ
  c : ℕ
  h : ℕ
  w : ℕ
deriving DecidableEq, Repr

/-- Shape of the output of `nn.Conv2d(inC, outC, k, stride, padding)` on a
frame, by the standard convolution size formula. -/
def conv2dShape (outC k stride padding : ℕ) (s : FrameShape) : FrameShape :=
  ⟨outC, (s.h + 2 * padding - k) / stride + 1,
    (s.w + 2 * padding - k) / stride + 1⟩

/-- Modelled from the spec: `ResidualBlocksWithInputConv` is an external
mmedit component missing from this repository; per the cleaning module
contract its residual stack operates at the configured channel width and
preserves spatial size. -/
def residualBlocksShape (mid_channels : ℕ) (s : FrameShape) : FrameShape :=
  ⟨mid_channels, s.h, s.w⟩

/-- Frame shape produced by `self.image_cleaning`: the residual stack
followed by `nn.Conv2d(mid_channels, 3, 3, 1, 1)`. -/
def imageCleaningShape (mid_channels : ℕ) (s : FrameShape) : FrameShape :=
  conv2dShape 3 3 1 1 (residualBlocksShape mid_channels s)

/-- Shape of an elementwise sum `lqs + residues`: defined only when both
operands have the same shape. -/
def addShape (a b : FrameShape) : Option FrameShape :=
  if b = a then some a else none

/-- Frame shape across one cleaning iteration, `lqs += image_cleaning(lqs)`. -/
def cleanIterShape (mid_channels : ℕ) (s : FrameShape) : Option FrameShape :=
  addShape s (imageCleaningShape mid_channels s)

/-- Frame shape after `k` cleaning iterations. -/
def refineShapeGo (mid_channels : ℕ) : ℕ → FrameShape → Option FrameShape
  | 0, s => some s
  | k + 1, s =>
      match cleanIterShape mid_channels s with
      | none => none
      | some s' => refineShapeGo mid_channels k s'

/-- Modelled from the spec: `BasicVSRNet` is an external mmedit component
missing from this repository; its consumed contract is to return an upscaled
clip fixed at 4 times the spatial scale. -/
def basicvsrShape (s : ClipShape) : ClipShape :=
  { s with h := 4 * s.h, w := 4 * s.w }

/-- The per-frame shape of a clip. -/
def frameShapeOf (s : ClipShape) : FrameShape := ⟨s.c, s.h, s.w⟩

/-- Replace the per-frame shape of a clip. -/
def withFrameShape (s : ClipShape) (fs : FrameShape) : ClipShape :=
  { s with c := fs.c, h := fs.h, w := fs.w }

/-- Shapes through `forward`, with `k` the number of cleaning iterations the
loop executes: the shape of the upscaled output clip paired with the shape of
the cleaned intermediate clip fed into `self.basicvsr`. -/
def forwardShapes (mid_channels k : ℕ) (s : ClipShape) :
    Option (ClipShape × ClipShape) :=
  match refineShapeGo mid_channels k (frameShapeOf s) with
  | none => none
  | some fs =>
      let cleaned := withFrameShape s fs
      some (basicvsrShape cleaned, cleaned)

/-- A concrete clip shape for evaluations: `(2, 5, 3, 16, 24)`. -/
def shapeEx : ClipShape := ⟨2, 5, 3, 16, 24⟩

lemma zipWith_map_same {α β γ δ : Type} (g : β → γ → δ) (u : α → β) (v : α → γ) :
    ∀ l : List α, List.zipWith g (l.map u) (l.map v) = l.map fun a => g (u a) (v a)
  | [] => rfl
  | a :: l => by simp [zipWith_map_same g u v l]

lemma seqGo_eq (f : Frame → Frame) :
    ∀ (m : ℕ) (rows : List (List Frame)), (∀ r ∈ rows, r.length = m) →
      seqGo f m rows =
        (rows.map fun row => row.map (cleanF f), rows.map fun row => row.map f)
  | 0, rows, h => by
      have h1 : ∀ r ∈ rows, List.map (cleanF f) r = id r := by
        intro r hr
        rw [List.length_eq_zero.mp (h r hr)]
        rfl
      have h2 : ∀ r ∈ rows, List.map f r = (fun _ => ([] : List Frame)) r := by
        intro r hr
        rw [List.length_eq_zero.mp (h r hr)]
        rfl
      simp only [seqGo]
      rw [List.map_congr_left h1, List.map_id, List.map_congr_left h2]
  | m + 1, rows, h => by
      have htl : ∀ r ∈ rows.map List.tail, r.length = m := by
        intro r hr
        obtain ⟨s, hs, rfl⟩ := List.mem_map.mp hr
        rw [List.length_tail, h s hs]
        omega
      simp only [seqGo, seqGo_eq f m (rows.map List.tail) htl, List.map_map,
        zipWith_map_same, Prod.mk.injEq]
      constructor
      · apply List.map_congr_left
        intro r hr
        match r, h r hr with
        | a :: as, _ => rfl
      · apply List.map_congr_left
        intro r hr
        match r, h r hr with
        | a :: as, _ => rfl

lemma unview_flatten (t : ℕ) :
    ∀ rows : List (List Frame), (∀ r ∈ rows, r.length = t) →
      unview rows.length t rows.flatten = rows
  | [], _ => rfl
  | r :: rs, h => by
      have hr : r.length = t := h r (List.mem_cons_self r rs)
      have ih := unview_flatten t rs fun s hs => h s (List.mem_cons_of_mem r hs)
      simp only [List.length_cons, List.flatten_cons, unview]
      rw [← hr, List.take_left, List.drop_left, hr, ih]

lemma cleanPass_batch (f : Frame → Frame) (lqs : Clip) (hWF : lqs.WF) :
    cleanPass false f lqs =
      some ({ lqs with rows := lqs.rows.map fun row => row.map (cleanF f) },
            (lqs.rows.map fun row => row.map f).flatten) := by
  obtain ⟨hn, ht⟩ := hWF
  have hzip : List.zipWith addF lqs.rows.flatten
        ((lqs.rows.map fun row => row.map f).flatten) =
      (lqs.rows.map fun row => row.map (cleanF f)).flatten := by
    rw [← List.map_flatten, ← List.map_flatten]
    have h0 := zipWith_map_same addF (fun x : Frame => x) f lqs.rows.flatten
    rw [List.map_id'] at h0
    exact h0
  have hlen : ∀ r ∈ lqs.rows.map fun row => row.map (cleanF f), r.length = lqs.t := by
    intro r hr
    obtain ⟨s, hs, rfl⟩ := List.mem_map.mp hr
    rw [List.length_map, ht s hs]
  have huv := unview_flatten lqs.t (lqs.rows.map fun row => row.map (cleanF f)) hlen
  rw [List.length_map, hn] at huv
  simp only [cleanPass, Bool.false_eq_true, if_false, List.map_flatten, hzip, huv]

lemma cleanPass_seq (f : Frame → Frame) (lqs : Clip) (hWF : lqs.WF)
    (ht : 1 ≤ lqs.t) :
    cleanPass true f lqs =
      some ({ lqs with rows := lqs.rows.map fun row => row.map (cleanF f) },
            (lqs.rows.map fun row => row.map f).flatten) := by
  simp only [cleanPass, if_true]
  rw [if_neg (by omega : ¬lqs.t = 0), seqGo_eq f lqs.t lqs.rows hWF.2]

lemma Clip.WF.mapRows {lqs : Clip} (h : lqs.WF) (g : Frame → Frame) :
    (Clip.mk lqs.n lqs.t (lqs.rows.map fun row => row.map g)).WF := by
  refine ⟨by rw [List.length_map]; exact h.1, ?_⟩
  intro r hr
  obtain ⟨s, hs, rfl⟩ := List.mem_map.mp hr
  rw [List.length_map, h.2 s hs]

lemma refineGo_seq_eq_batch (f : Frame → Frame) (th : ℚ) :
    ∀ (fuel : ℕ) (lqs : Clip), lqs.WF → 1 ≤ lqs.t →
      refineGo true f th fuel lqs = refineGo false f th fuel lqs
  | 0, _, _, _ => rfl
  | fuel + 1, lqs, hWF, ht => by
      simp only [refineGo, cleanPass_seq f lqs hWF ht, cleanPass_batch f lqs hWF]
      have hrec := refineGo_seq_eq_batch f th fuel
        (Clip.mk lqs.n lqs.t (lqs.rows.map fun row => row.map (cleanF f)))
        (hWF.mapRows (cleanF f)) ht
      by_cases hb : meanAbsBreak ((lqs.rows.map fun row => row.map f).flatten) th
      · simp [hb]
      · simp only [hb, Bool.false_eq_true, if_false]
        rw [hrec]

lemma cleanPass_batch_isSome (f : Frame → Frame) (lqs : Clip) :
    ∃ x, cleanPass false f lqs = some x :=
  ⟨_, rfl⟩

lemma refineGo_batch_isSome (f : Frame → Frame) (th : ℚ) :
    ∀ (fuel : ℕ) (lqs : Clip), (refineGo false f th fuel lqs).isSome = true
  | 0, _ => rfl
  | fuel + 1, lqs => by
      obtain ⟨⟨lqs', res⟩, hp⟩ := cleanPass_batch_isSome f lqs
      simp only [refineGo, hp]
      by_cases hb : meanAbsBreak res th
      · simp [hb]
      · simp only [hb, Bool.false_eq_true, if_false]
        have ih := refineGo_batch_isSome f th fuel lqs'
        cases hr : refineGo false f th fuel lqs' with
        | none => rw [hr] at ih; simp at ih
        | some out => simp [hr]

lemma refineGo_count_bounds (seq : Bool) (f : Frame → Frame) (th : ℚ) :
    ∀ (fuel : ℕ) (lqs : Clip) (out : Clip × ℕ),
      refineGo seq f th fuel lqs = some out → out.2 ≤ fuel ∧ (1 ≤ fuel → 1 ≤ out.2)
  | 0, lqs, out, h => by
      simp only [refineGo, Option.some.injEq] at h
      have h2 : out.2 = 0 := by rw [← h]
      omega
  | fuel + 1, lqs, out, h => by
      simp only [refineGo] at h
      cases hp : cleanPass seq f lqs with
      | none => rw [hp] at h; exact absurd h (by simp)
      | some pr =>
          obtain ⟨lqs', res⟩ := pr
          rw [hp] at h
          by_cases hb : meanAbsBreak res th
          · simp only [hb, if_true, Option.some.injEq] at h
            have h2 : out.2 = 1 := by rw [← h]
            omega
          · simp only [hb, Bool.false_eq_true, if_false] at h
            cases hr : refineGo seq f th fuel lqs' with
            | none => rw [hr] at h; exact absurd h (by simp)
            | some out' =>
                rw [hr] at h
                simp only [Option.some.injEq] at h
                have h2 : out.2 = out'.2 + 1 := by rw [← h]
                have hbd := refineGo_count_bounds seq f th fuel lqs' out' hr
                omega

lemma resSumAbs_nonneg (res : List Frame) : 0 ≤ resSumAbs res := by
  apply List.sum_nonneg
  intro x hx
  obtain ⟨fr, _, rfl⟩ := List.mem_map.mp hx
  apply List.sum_nonneg
  intro y hy
  obtain ⟨q, _, rfl⟩ := List.mem_map.mp hy
  exact abs_nonneg q

lemma meanAbsBreak_zero (res : List Frame) : meanAbsBreak res 0 = false := by
  simp only [meanAbsBreak, decide_eq_false_iff_not, not_and]
  intro _
  have h1 : (0 : ℚ) ≤ resSumAbs res / (resNumel res : ℚ) :=
    div_nonneg (resSumAbs_nonneg res) (by positivity)
  exact not_lt.mpr h1

lemma refineGo_zero_thres_count (seq : Bool) (f : Frame → Frame) :
    ∀ (fuel : ℕ) (lqs : Clip) (out : Clip × ℕ),
      refineGo seq f 0 fuel lqs = some out → out.2 = fuel
  | 0, lqs, out, h => by
      simp only [refineGo, Option.some.injEq] at h
      have h2 : out.2 = 0 := by rw [← h]
      omega
  | fuel + 1, lqs, out, h => by
      simp only [refineGo] at h
      cases hp : cleanPass seq f lqs with
      | none => rw [hp] at h; exact absurd h (by simp)
      | some pr =>
          obtain ⟨lqs', res⟩ := pr
          rw [hp] at h
          simp only [meanAbsBreak_zero, Bool.false_eq_true, if_false] at h
          cases hr : refineGo seq f 0 fuel lqs' with
          | none => rw [hr] at h; exact absurd h (by simp)
          | some out' =>
              rw [hr] at h
              simp only [Option.some.injEq] at h
              have h2 : out.2 = out'.2 + 1 := by rw [← h]
              have hc := refineGo_zero_thres_count seq f fuel lqs' out' hr
              omega

lemma refineLoop_break_first (seq : Bool) (f : Frame → Frame) (th : ℚ)
    (lqs lqs₁ : Clip) (res₁ : List Frame)
    (hp : cleanPass seq f lqs = some (lqs₁, res₁))
    (hb : meanAbsBreak res₁ th = true) :
    refineLoop seq f th lqs = some (lqs₁, 1) := by
  simp only [refineLoop, refineGo, hp, hb, if_true]

lemma cleanIterShape_fix (mid : ℕ) (s : FrameShape) (hc : s.c = 3)
    (hh : 1 ≤ s.h) (hw : 1 ≤ s.w) : cleanIterShape mid s = some s := by
  obtain ⟨c, h, w⟩ := s
  simp only at hc hh hw
  subst hc
  have hcond : (⟨3, h + 2 * 1 - 3 + 1, w + 2 * 1 - 3 + 1⟩ : FrameShape) = ⟨3, h, w⟩ := by
    simp only [FrameShape.mk.injEq]
    exact ⟨trivial, by omega, by omega⟩
  simp only [cleanIterShape, imageCleaningShape, conv2dShape, residualBlocksShape,
    addShape, Nat.div_one]
  rw [hcond, if_pos rfl]

lemma refineShapeGo_fix (mid : ℕ) (s : FrameShape) (hc : s.c = 3)
    (hh : 1 ≤ s.h) (hw : 1 ≤ s.w) :
    ∀ k : ℕ, refineShapeGo mid k s = some s
  | 0 => rfl
  | k + 1 => by
      simp only [refineShapeGo, cleanIterShape_fix mid s hc hh hw]
      exact refineShapeGo_fix mid s hc hh hw k

/-- Claim C1: the spec contract says that with `return_lqs` set, `forward`
returns both the upscaled clip and the cleaned clip; the code instead
evaluates the no-op expression `outputs, lqs` and falls through, returning
Python `None`.  Evaluated here at a concrete clip: the call returns `None`
(the inner `none`), not a value. -/
theorem forward_return_lqs_returns_none :
    forward false idClean (fun c => c) 1 clip110 true = some none := by
  norm_num [forward, forwardFinalBuffer, refineLoop, refineGo, cleanPass, seqGo,
    unview, meanAbsBreak, resNumel, resSumAbs, addF, cleanF, idClean, clip110,
    clip111, clipT0, mkRealBasicVSRNet]

/-- Claim C2, counterexample: at a clip of shape `(1, 0, c, h, w)` the
sequential strategy raises (`torch.stack` of an empty residue list) while the
batched strategy returns a cleaned clip, so the two strategies do not agree
on every clip of shape `(N, T, 3, H, W)`. -/
theorem seq_batch_cleaning_differ_at_t_zero :
    refineLoop true idClean 1 clipT0 ≠ refineLoop false idClean 1 clipT0 := by
  norm_num [forward, forwardFinalBuffer, refineLoop, refineGo, cleanPass, seqGo,
    unview, meanAbsBreak, resNumel, resSumAbs, addF, cleanF, idClean, clip110,
    clip111, clipT0, mkRealBasicVSRNet]
  exact nofun

/-- Claim C2 (amended with `T ≥ 1`): for every well-formed clip with at least
one time step and identical module weights, the sequential and the batched
cleaning strategies produce identical cleaned clips (exactly, in the exact
rational model), including equal iteration counts. -/
theorem seq_batch_cleaning_equiv (image_cleaning : Frame → Frame) (th : ℚ)
    (lqs : Clip) (hWF : lqs.WF) (ht : 1 ≤ lqs.t) :
    refineLoop true image_cleaning th lqs = refineLoop false image_cleaning th lqs :=
  refineGo_seq_eq_batch image_cleaning th 3 lqs hWF ht

/-- Witness for C2 at a concrete clip. -/
theorem seq_batch_cleaning_equiv_witness :
    clip111.WF ∧ 1 ≤ clip111.t ∧
      refineLoop true idClean 1 clip111 = refineLoop false idClean 1 clip111 :=
  ⟨by decide, by decide,
    seq_batch_cleaning_equiv idClean 1 clip111 (by decide) (by decide)⟩

/-- Claim C3: whenever `forward`'s refinement loop completes, it has executed
at least 1 and at most 3 cleaning iterations. -/
theorem cleaning_loop_iteration_bounds (seq : Bool)
    (image_cleaning : Frame → Frame) (th : ℚ) (lqs : Clip) (out : Clip × ℕ)
    (h : refineLoop seq image_cleaning th lqs = some out) :
    1 ≤ out.2 ∧ out.2 ≤ 3 := by
  obtain ⟨h1, h2⟩ := refineGo_count_bounds seq image_cleaning th 3 lqs out h
  exact ⟨h2 (by omega), h1⟩

/-- Witness for C3 at a concrete clip. -/
theorem cleaning_loop_iteration_bounds_witness :
    refineLoop false idClean 1 clip110 = some (clip110, 1) ∧
      (1 ≤ (clip110, 1).2 ∧ (clip110, 1).2 ≤ 3) :=
  ⟨by norm_num [forward, forwardFinalBuffer, refineLoop, refineGo, cleanPass, seqGo,
    unview, meanAbsBreak, resNumel, resSumAbs, addF, cleanF, idClean, clip110,
    clip111, clipT0, mkRealBasicVSRNet],
    cleaning_loop_iteration_bounds false idClean 1 clip110 (clip110, 1)
      (by norm_num [forward, forwardFinalBuffer, refineLoop, refineGo, cleanPass, seqGo,
    unview, meanAbsBreak, resNumel, resSumAbs, addF, cleanF, idClean, clip110,
    clip111, clipT0, mkRealBasicVSRNet])⟩

/-- Claim C4: when the mean absolute residue of the first cleaning pass is
defined (the residues tensor is nonempty) and strictly below the configured
normalized threshold, the refinement loop stops after exactly 1 iteration,
returning that first cleaned clip. -/
theorem cleaning_loop_stops_after_first_pass (seq : Bool)
    (image_cleaning : Frame → Frame) (th : ℚ) (lqs lqs₁ : Clip)
    (res₁ : List Frame)
    (hp : cleanPass seq image_cleaning lqs = some (lqs₁, res₁))
    (h0 : resNumel res₁ ≠ 0)
    (hlt : resSumAbs res₁ / (resNumel res₁ : ℚ) < th) :
    refineLoop seq image_cleaning th lqs = some (lqs₁, 1) :=
  refineLoop_break_first seq image_cleaning th lqs lqs₁ res₁ hp
    (by simp only [meanAbsBreak, decide_eq_true_eq]; exact ⟨h0, hlt⟩)

/-- Witness for C4 at a concrete clip. -/
theorem cleaning_loop_stops_after_first_pass_witness :
    cleanPass false idClean clip110 = some (clip110, [[0]]) ∧
      resNumel [[0]] ≠ 0 ∧
      resSumAbs [[0]] / (resNumel [[0]] : ℚ) < 1 ∧
      refineLoop false idClean 1 clip110 = some (clip110, 1) :=
  ⟨by norm_num [forward, forwardFinalBuffer, refineLoop, refineGo, cleanPass, seqGo,
    unview, meanAbsBreak, resNumel, resSumAbs, addF, cleanF, idClean, clip110,
    clip111, clipT0, mkRealBasicVSRNet],
    by decide,
    by norm_num [resNumel, resSumAbs],
    cleaning_loop_stops_after_first_pass false idClean 1 clip110 clip110 [[0]]
      (by norm_num [forward, forwardFinalBuffer, refineLoop, refineGo, cleanPass, seqGo,
    unview, meanAbsBreak, resNumel, resSumAbs, addF, cleanF, idClean, clip110,
    clip111, clipT0, mkRealBasicVSRNet])
      (by decide)
      (by norm_num [resNumel, resSumAbs])⟩

/-- Claim C5: a module constructed with `dynamic_refine_thres = 0` has a
normalized threshold of 0, and since the mean absolute residue is never
strictly below 0, every completing run of the refinement loop executes the
full 3 iterations (the early-exit branch is never taken, whether or not the
residues are nonzero). -/
theorem cleaning_loop_runs_three_at_zero_threshold (a : NetArgs) (seq : Bool)
    (image_cleaning : Frame → Frame) (lqs : Clip) (out : Clip × ℕ)
    (h0 : a.dynamic_refine_thres = 0)
    (hrun : refineLoop seq image_cleaning
      (mkRealBasicVSRNet a).dynamic_refine_thres lqs = some out) :
    out.2 = 3 := by
  have hth : (mkRealBasicVSRNet a).dynamic_refine_thres = 0 := by
    cases hfix : a.is_fix_cleaning <;>
      simp [mkRealBasicVSRNet, hfix, h0, zero_div]
  rw [hth] at hrun
  exact refineGo_zero_thres_count seq image_cleaning 3 lqs out hrun

/-- Witness for C5 at a concrete clip and concrete constructor arguments. -/
theorem cleaning_loop_runs_three_at_zero_threshold_witness :
    (⟨64, 20, 20, 0, false, false⟩ : NetArgs).dynamic_refine_thres = 0 ∧
      refineLoop false idClean
        (mkRealBasicVSRNet ⟨64, 20, 20, 0, false, false⟩).dynamic_refine_thres
        clip110 = some (clip110, 3) ∧
      (clip110, 3).2 = 3 :=
  ⟨rfl,
    by norm_num [forward, forwardFinalBuffer, refineLoop, refineGo, cleanPass, seqGo,
    unview, meanAbsBreak, resNumel, resSumAbs, addF, cleanF, idClean, clip110,
    clip111, clipT0, mkRealBasicVSRNet],
    cleaning_loop_runs_three_at_zero_threshold ⟨64, 20, 20, 0, false, false⟩
      false idClean clip110 (clip110, 3) rfl
      (by norm_num [forward, forwardFinalBuffer, refineLoop, refineGo, cleanPass, seqGo,
    unview, meanAbsBreak, resNumel, resSumAbs, addF, cleanF, idClean, clip110,
    clip111, clipT0, mkRealBasicVSRNet])⟩

/-- Claim C6, counterexample: under the sequential strategy `forward` mutates
the caller input tensor in place (`lqs[:, i, :, :, :] += residue_i` writes
through to the caller storage), so the input clip is not left unchanged: at a
concrete clip with nonzero residues the buffer ends different from the
input. -/
theorem sequential_forward_mutates_input :
    forwardFinalBuffer true idClean 1 clip111 ≠ some clip111 := by
  norm_num [forward, forwardFinalBuffer, refineLoop, refineGo, cleanPass, seqGo,
    unview, meanAbsBreak, resNumel, resSumAbs, addF, cleanF, idClean, clip110,
    clip111, clipT0, mkRealBasicVSRNet]

/-- Claim C6 (amended): under the batched strategy the caller input tensor is
left unchanged (and the call always completes); under the sequential strategy
the caller input tensor is mutated in place and ends up holding the cleaned
intermediate clip.  In both modes the result is a deterministic function of
the input clip and the module parameters. -/
theorem forward_buffer_effects (image_cleaning : Frame → Frame) (th : ℚ)
    (lqs : Clip) :
    forwardFinalBuffer false image_cleaning th lqs = some lqs ∧
      (∀ out : Clip × ℕ, refineLoop true image_cleaning th lqs = some out →
        forwardFinalBuffer true image_cleaning th lqs = some out.1) := by
  constructor
  · have hs := refineGo_batch_isSome image_cleaning th 3 lqs
    simp only [forwardFinalBuffer, refineLoop]
    cases hr : refineGo false image_cleaning th 3 lqs with
    | none => rw [hr] at hs; simp at hs
    | some out => obtain ⟨l, k⟩ := out; simp
  · intro out hout
    obtain ⟨l, k⟩ := out
    simp [forwardFinalBuffer, hout]

/-- Witness for C6 at a concrete clip. -/
theorem forward_buffer_effects_witness :
    forwardFinalBuffer false idClean 1 clip110 = some clip110 ∧
      refineLoop true idClean 1 clip110 = some (clip110, 1) ∧
      forwardFinalBuffer true idClean 1 clip110 = some (clip110, 1).1 :=
  ⟨(forward_buffer_effects idClean 1 clip110).1,
    by norm_num [forward, forwardFinalBuffer, refineLoop, refineGo, cleanPass, seqGo,
    unview, meanAbsBreak, resNumel, resSumAbs, addF, cleanF, idClean, clip110,
    clip111, clipT0, mkRealBasicVSRNet],
    (forward_buffer_effects idClean 1 clip110).2 (clip110, 1)
      (by norm_num [forward, forwardFinalBuffer, refineLoop, refineGo, cleanPass, seqGo,
    unview, meanAbsBreak, resNumel, resSumAbs, addF, cleanF, idClean, clip110,
    clip111, clipT0, mkRealBasicVSRNet])⟩

/-- Claim C7: `init_weights` raises a `TypeError` exactly when the
`pretrained` argument is neither a string nor `None`; the message names the
received type (see `typeErrorMsg`); and with `None` nothing is loaded and no
error is raised. -/
theorem init_weights_type_error_iff (p : Pretrained) (strict : Bool) :
    ((init_weights p strict).isTypeError = (!p.isStr && !p.isNonePy)) ∧
      init_weights .nonePy strict = .noop ∧
      ∀ ty : String,
        init_weights (.other ty) strict = .typeError (typeErrorMsg ty) := by
  refine ⟨?_, rfl, fun ty => rfl⟩
  cases p <;> rfl

/-- Claim C8: after construction the flow estimator (`spynet`) parameters are
non-trainable regardless of the freeze-cleaning flag, the cleaning module
parameters are non-trainable exactly when `is_fix_cleaning` is set, and the
forward behavior of the constructed module does not depend on
`is_fix_cleaning`. -/
theorem construction_freeze_flags (a : NetArgs) (b : Bool) :
    (mkRealBasicVSRNet a).spynet_requires_grad = false ∧
      (mkRealBasicVSRNet a).cleaning_requires_grad = !a.is_fix_cleaning ∧
      netForward (mkRealBasicVSRNet { a with is_fix_cleaning := b }) =
        netForward (mkRealBasicVSRNet a) := by
  refine ⟨rfl, ?_, ?_⟩
  · cases hfix : a.is_fix_cleaning <;> simp [mkRealBasicVSRNet, hfix]
  · funext f bv lqs r
    cases hfix : a.is_fix_cleaning <;> cases b <;>
      simp [mkRealBasicVSRNet, netForward, hfix]

/-- Claim C9: for a clip with 3 channels and positive spatial size, the
upscaled output clip of `forward` has height and width exactly 4 times those
of the cleaned intermediate clip (and cleaning preserves the input shape).
The 4x factor of the external `BasicVSRNet` is modelled from the spec. -/
theorem forward_output_four_times_cleaned (mid k : ℕ)
    (s out cleaned : ClipShape) (hc : s.c = 3) (hh : 1 ≤ s.h) (hw : 1 ≤ s.w)
    (hrun : forwardShapes mid k s = some (out, cleaned)) :
    out.h = 4 * cleaned.h ∧ out.w = 4 * cleaned.w ∧ cleaned = s := by
  have hfix := refineShapeGo_fix mid (frameShapeOf s) hc hh hw k
  simp only [forwardShapes, hfix] at hrun
  have hws : withFrameShape s (frameShapeOf s) = s := by
    obtain ⟨n, t, c, h, w⟩ := s
    rfl
  rw [hws] at hrun
  simp only [Option.some.injEq, Prod.mk.injEq] at hrun
  obtain ⟨hout, hcl⟩ := hrun
  subst hout
  subst hcl
  exact ⟨rfl, rfl, rfl⟩

/-- Witness for C9 at a concrete clip shape. -/
theorem forward_output_four_times_cleaned_witness :
    shapeEx.c = 3 ∧ 1 ≤ shapeEx.h ∧ 1 ≤ shapeEx.w ∧
      forwardShapes 64 3 shapeEx = some (⟨2, 5, 3, 64, 96⟩, shapeEx) ∧
      ((⟨2, 5, 3, 64, 96⟩ : ClipShape).h = 4 * shapeEx.h ∧
        (⟨2, 5, 3, 64, 96⟩ : ClipShape).w = 4 * shapeEx.w ∧
        shapeEx = shapeEx) :=
  ⟨rfl, by decide, by decide, by decide,
    forward_output_four_times_cleaned 64 3 shapeEx ⟨2, 5, 3, 64, 96⟩ shapeEx
      rfl (by decide) (by decide) (by decide)⟩

/-- Claim C10: with sequential cleaning enabled and a clip with zero frames
along the time axis, `forward` raises (stacking an empty residue list)
instead of returning; with at least one time step on a well-formed clip it
completes, so the sequential strategy requires `T ≥ 1`. -/
theorem sequential_cleaning_needs_nonempty_time (image_cleaning : Frame → Frame)
    (basicvsr : Clip → Clip) (th : ℚ) (lqs : Clip) (return_lqs : Bool) :
    (lqs.t = 0 →
      forward true image_cleaning basicvsr th lqs return_lqs = none) ∧
      (lqs.WF → 1 ≤ lqs.t →
        (forward true image_cleaning basicvsr th lqs return_lqs).isSome = true) := by
  constructor
  · intro ht
    simp [forward, refineLoop, refineGo, cleanPass, ht]
  · intro hWF ht
    have heq := refineGo_seq_eq_batch image_cleaning th 3 lqs hWF ht
    have hs := refineGo_batch_isSome image_cleaning th 3 lqs
    simp only [forward, refineLoop, heq]
    cases hr : refineGo false image_cleaning th 3 lqs with
    | none => rw [hr] at hs; simp at hs
    | some out =>
        obtain ⟨l, k⟩ := out
        cases return_lqs <;> simp [hr]

/-- Witness for C10: a concrete empty-time clip that raises and a concrete
one-frame clip that completes. -/
theorem sequential_cleaning_needs_nonempty_time_witness :
    (clipT0.t = 0 ∧ forward true idClean (fun c => c) 1 clipT0 false = none) ∧
      (clip111.WF ∧ 1 ≤ clip111.t ∧
        (forward true idClean (fun c => c) 1 clip111 false).isSome = true) :=
  ⟨⟨rfl,
      (sequential_cleaning_needs_nonempty_time idClean (fun c => c) 1 clipT0
        false).1 rfl⟩,
    ⟨by decide, by decide,
      (sequential_cleaning_needs_nonempty_time idClean (fun c => c) 1 clip111
        false).2 (by decide) (by decide)⟩⟩

end RealBasicVSR
